import Mathlib

/-!
Shallow embedding of the LEDGER repository's reconciliation and metrics core
(`src/unnamed/part_000`, data model from `src/types.ts`).

Modelling conventions:
* JS numbers carrying currency amounts and quantities are modelled as `ℚ`.
* Optional JS fields are `Option _`; the JS idiom `x || 0` is `Option.getD 0`
  and `x || ''` is `Option.getD ""`.
* The JS truthiness test `!e.originalRefId` (undefined or empty string) is
  modelled as `Option.isNone`: an absent back-reference is `none`.
* Dates are ISO `YYYY-MM-DD` strings; lexicographic string comparison agrees
  with chronological comparison on such strings, so the comparator
  `new Date(a.date).getTime() - new Date(b.date).getTime()` is modelled as
  string comparison on `date`.
* `Array.prototype.sort` (stable since ES2019) with comparator `cmp` is
  modelled as the stable `List.insertionSort` with the relation `cmp a b ≤ 0`.
* `generateId()` results and `formatCurrency` are parameters of the engine
  (`cnId`, `balId`, `fmt`), since they are nondeterministic / host formatting.
-/

/-- Entry kind, from `types.ts` (`EntryType`). -/
inductive EntryType : Type
  | INVOICE
  | PAYMENT
  | CN
deriving DecidableEq

/-- Invoice status, from `types.ts` (`status` field values). -/
inductive InvStatus : Type
  | PENDING
  | PAID
  | ADJUSTED
deriving DecidableEq

/-- One priced line within a multi-size invoice, from `types.ts`. -/
structure InvoiceItem : Type where
  id : String
  size : String
  pattern : String
  quantity : ℚ
  unitPrice : ℚ
deriving DecidableEq

/-- One ledger record, from `types.ts` (`LedgerEntry`). -/
structure LedgerEntry : Type where
  id : String
  type : EntryType
  date : String
  invoiceNo : String
  size : Option String := none
  pattern : Option String := none
  quantity : Option ℚ := none
  unitPrice : Option ℚ := none
  invoiceAmount : Option ℚ := none
  items : Option (List InvoiceItem) := none
  dueDate : Option String := none
  paymentAmount : Option ℚ := none
  cnAmount : Option ℚ := none
  status : Option InvStatus := none
  originalRefId : Option String := none
  notes : Option String := none
deriving DecidableEq

/-- Derived statistics record, from `types.ts` (`Stats`). -/
structure Stats : Type where
  totalInvoiced : ℚ
  totalPaid : ℚ
  totalCN : ℚ
  outstanding : ℚ
  qtyPcr : ℚ
  qtyNylon : ℚ
  qty2Wheeler : ℚ
deriving DecidableEq

/-! ## CN application engine (`handleSubmitTransaction`, CN branch, lines 323-385) -/

/-- The filter `entry.type === 'INVOICE' && entry.status === 'PENDING'` (line 339). -/
def isPendingInvoice (e : LedgerEntry) : Bool :=
  e.type == EntryType.INVOICE && e.status == some InvStatus.PENDING

/-- The comparator `new Date(a.date).getTime() - new Date(b.date).getTime() <= 0`
(line 340), as string comparison on ISO dates.  Comparison is on the character
lists; by `String.le_iff_toList_le` this is exactly the string order. -/
def dateLe (a b : LedgerEntry) : Prop :=
  a.date.data ≤ b.date.data

instance : DecidableRel dateLe := fun a b => by
  unfold dateLe; infer_instance

/-- The `pendingInvoices` list (lines 338-340): pending invoices sorted by date
ascending by the stable JS `Array.prototype.sort`, modelled as a stable
insertion sort. -/
def pendingSorted (entries : List LedgerEntry) : List LedgerEntry :=
  (entries.filter isPendingInvoice).insertionSort dateLe

/-- The `targetInvoice` (line 343): head of the sorted pending list, if any. -/
def firstPending (entries : List LedgerEntry) : Option LedgerEntry :=
  (pendingSorted entries).head?

/-- The `cnEntry` object (lines 324-331). -/
def mkCNEntry (cnId transDate : String) (amountVal : ℚ) (transNotes : String) : LedgerEntry :=
  { id := cnId
    type := EntryType.CN
    date := transDate
    invoiceNo := "CN-ADJ"
    cnAmount := some amountVal
    notes := some transNotes }

/-- The settle mutation (lines 349-350 and 377-378): status `PAID`, note appended. -/
def settleByCN (e : LedgerEntry) : LedgerEntry :=
  { e with
    status := some InvStatus.PAID
    notes := some (e.notes.getD "" ++ " [Settled by CN]") }

/-- The adjust mutation (lines 353-354): status `ADJUSTED`, note appended with the
formatted CN amount. -/
def adjustByCN (fmt : ℚ → String) (amountVal : ℚ) (e : LedgerEntry) : LedgerEntry :=
  { e with
    status := some InvStatus.ADJUSTED
    notes := some (e.notes.getD "" ++ " [Adj by CN " ++ fmt amountVal ++ "]") }

/-- The `balanceInvoice` object (lines 359-372): copy of `target` with the listed
fields overridden, including `notes`. -/
def mkBalanceInvoice (target : LedgerEntry) (amountVal : ℚ) (balId : String) : LedgerEntry :=
  let invAmount := target.invoiceAmount.getD 0
  let balanceAmount := invAmount - amountVal
  { target with
    id := balId
    invoiceNo := target.invoiceNo ++ "-BAL"
    invoiceAmount := some balanceAmount
    quantity := some 1
    unitPrice := some balanceAmount
    size := some "Balance Forward"
    pattern := some "-"
    items := some []
    originalRefId := some target.id
    status := some InvStatus.PENDING
    notes := some ("Balance after CN adjustment on " ++ target.invoiceNo) }

/-- The CN branch of `handleSubmitTransaction` (lines 323-384): select the first
pending invoice, settle or adjust it, possibly push a balance-forward invoice,
and always push the new CN entry last.  `cnId`/`balId` stand for the two
`generateId()` calls and `fmt` for `formatCurrency`. -/
def applyCreditNote (entries : List LedgerEntry) (amountVal : ℚ)
    (transDate transNotes cnId balId : String) (fmt : ℚ → String) : List LedgerEntry :=
  let cnEntry := mkCNEntry cnId transDate amountVal transNotes
  let base :=
    match firstPending entries with
    | none => entries
    | some target =>
      if 0 < amountVal then
        let invIndex := entries.findIdx (fun e => e.id == target.id)
        let invAmount := target.invoiceAmount.getD 0
        if |amountVal - invAmount| < 1 / 100 then
          entries.modify settleByCN invIndex
        else if amountVal < invAmount then
          entries.modify (adjustByCN fmt amountVal) invIndex
            ++ [mkBalanceInvoice target amountVal balId]
        else
          entries.modify settleByCN invIndex
      else entries
  base ++ [cnEntry]

/-! ## Metrics engine (`stats` memo, lines 95-170) -/

/-- The implicit single item synthesized from legacy scalar fields (line 115). -/
def implicitItem (e : LedgerEntry) : InvoiceItem :=
  { id := ""
    size := e.size.getD ""
    pattern := e.pattern.getD ""
    quantity := e.quantity.getD 0
    unitPrice := e.unitPrice.getD 0 }

/-- The `itemsToProcess` selection (lines 113-115): `items` when present and
non-empty, else the implicit legacy item. -/
def itemsToProcess (e : LedgerEntry) : List InvoiceItem :=
  match e.items with
  | some its => if its.isEmpty then [implicitItem e] else its
  | none => [implicitItem e]

/-- Whitespace trimming on a character list, the model of `String.prototype.trim`. -/
def trimChars (cs : List Char) : List Char :=
  ((cs.dropWhile Char.isWhitespace).reverse.dropWhile Char.isWhitespace).reverse

/-- Size normalization (line 118): `(item.size || '').toUpperCase().trim()`,
carried out characterwise. -/
def normSize (s : String) : List Char :=
  trimChars (s.data.map Char.toUpper)

/-- The regex test `/[A-Z]/.test(size)` (line 126), on the already-uppercased code. -/
def hasAsciiLetter (cs : List Char) : Bool :=
  cs.any (fun c => 'A' ≤ c && c ≤ 'Z')

/-- Scoped accumulator of the first pass of `stats` (lines 97-104). -/
structure ScopedAcc : Type where
  totalInvoiced : ℚ
  totalPaid : ℚ
  totalCN : ℚ
  qtyPcr : ℚ
  qtyNylon : ℚ
  qty2Wheeler : ℚ
deriving DecidableEq

/-- Category classification of one item (lines 117-130): `R` before `D`, then
the no-letter test, inside the `if (size)` non-empty guard. -/
def bucketAdd (acc : ScopedAcc) (item : InvoiceItem) : ScopedAcc :=
  let size := normSize item.size
  let qty := item.quantity
  if size.isEmpty then acc
  else if size.contains 'R' then { acc with qtyPcr := acc.qtyPcr + qty }
  else if size.contains 'D' then { acc with qtyNylon := acc.qtyNylon + qty }
  else if !hasAsciiLetter size then { acc with qty2Wheeler := acc.qty2Wheeler + qty }
  else acc

/-- One step of the scoped pass of `stats` (lines 106-137). -/
def scopedStep (acc : ScopedAcc) (e : LedgerEntry) : ScopedAcc :=
  match e.type with
  | EntryType.INVOICE =>
    if e.originalRefId.isNone then
      let acc1 := { acc with totalInvoiced := acc.totalInvoiced + e.invoiceAmount.getD 0 }
      (itemsToProcess e).foldl bucketAdd acc1
    else acc
  | EntryType.PAYMENT => { acc with totalPaid := acc.totalPaid + e.paymentAmount.getD 0 }
  | EntryType.CN => { acc with totalCN := acc.totalCN + e.cnAmount.getD 0 }

/-- One step of the global pass of `stats` (lines 146-157), accumulating
`(globalInvoiced, globalPaid, globalCN)`. -/
def globalStep (acc : ℚ × ℚ × ℚ) (e : LedgerEntry) : ℚ × ℚ × ℚ :=
  match e.type with
  | EntryType.INVOICE =>
    if e.originalRefId.isNone then (acc.1 + e.invoiceAmount.getD 0, acc.2.1, acc.2.2) else acc
  | EntryType.PAYMENT => (acc.1, acc.2.1 + e.paymentAmount.getD 0, acc.2.2)
  | EntryType.CN => (acc.1, acc.2.1, acc.2.2 + e.cnAmount.getD 0)

/-- The `stats` computation (lines 95-170): scoped pass over the visible
(filtered) list, global pass over the whole list, `outstanding` from the
global pass only. -/
def computeStats (visible allEntries : List LedgerEntry) : Stats :=
  let s := visible.foldl scopedStep ⟨0, 0, 0, 0, 0, 0⟩
  let g := allEntries.foldl globalStep (0, 0, 0)
  { totalInvoiced := s.totalInvoiced
    totalPaid := s.totalPaid
    totalCN := s.totalCN
    outstanding := g.1 - g.2.1 - g.2.2
    qtyPcr := s.qtyPcr
    qtyNylon := s.qtyNylon
    qty2Wheeler := s.qty2Wheeler }

/-! ## Ordering / filtering (`filteredEntries` memo, lines 72-91) -/

/-- Numeric value of a run of ASCII digits. -/
def natOfDigits (cs : List Char) : ℕ :=
  cs.foldl (fun n c => 10 * n + (c.toNat - '0'.toNat)) 0

/-- Grouping of a character list into maximal runs of digit / non-digit
characters, preserving order; the `Bool` marks a digit run. -/
def charRuns : List Char → List (Bool × List Char)
  | [] => []
  | c :: rest =>
    match charRuns rest with
    | (b, run) :: ts =>
      if b = c.isDigit then (b, c :: run) :: ts
      else (c.isDigit, [c]) :: (b, run) :: ts
    | [] => [(c.isDigit, [c])]

/-- Tokenization of a character list into alternating digit and non-digit runs:
the model of numeric-aware collation (design note: split into alternating
digit/non-digit runs, compare digit runs as integers).  Digit runs become
`Sum.inl`, textual runs `Sum.inr`. -/
def tokenize (cs : List Char) : List (ℕ ⊕ List Char) :=
  (charRuns cs).map fun br =>
    if br.1 then Sum.inl (natOfDigits br.2) else Sum.inr br.2

/-- Collation key of an invoice number: case-folded (`sensitivity: 'base'` is
modelled as upper-casing) and tokenized; keys compare lexicographically, with
digit tokens ordered numerically and before textual tokens. -/
def invNoKey (s : String) : List (Lex (ℕ ⊕ List Char)) :=
  (tokenize (s.data.map Char.toUpper)).map toLex

/-- The sort comparator of `filteredEntries` (lines 79-90), as the relation
`cmp a b ≤ 0`: primary key `date` ascending (string order, compared on the
character lists as in `dateLe`), secondary key `invoiceNo` with numeric-aware
case-insensitive comparison (`invA.localeCompare(invB, undefined,
numeric/base)`; `a.invoiceNo || ''` is the identity on total strings). -/
def entryLe (a b : LedgerEntry) : Prop :=
  if a.date ≠ b.date then a.date.data < b.date.data
  else invNoKey a.invoiceNo ≤ invNoKey b.invoiceNo

instance : DecidableRel entryLe := fun a b => by
  unfold entryLe; infer_instance

/-- The `filteredEntries` memo (lines 72-91): month filter by ISO-date string
match (`e.date.startsWith(filterDate)`, no filter when the key is empty), then
the stable sort (JS stable `Array.prototype.sort`, modelled as insertion sort)
by `entryLe`. -/
def visibleEntries (entries : List LedgerEntry) (filterDate : String) : List LedgerEntry :=
  let data :=
    if filterDate.isEmpty then entries
    else entries.filter (fun e => e.date.startsWith filterDate)
  data.insertionSort entryLe

/-! ## Specification-side formulas and helper predicates used by the theorems -/

/-- Sum of `invoiceAmount` over `INVOICE` entries whose `originalRefId` is unset
("original sales"), written as the specification states it. -/
def sumOriginalInvoiced (l : List LedgerEntry) : ℚ :=
  ((l.filter fun e => e.type == EntryType.INVOICE && e.originalRefId.isNone).map
    fun e => e.invoiceAmount.getD 0).sum

/-- Sum of `paymentAmount` over `PAYMENT` entries. -/
def sumPayments (l : List LedgerEntry) : ℚ :=
  ((l.filter fun e => e.type == EntryType.PAYMENT).map fun e => e.paymentAmount.getD 0).sum

/-- Sum of `cnAmount` over `CN` entries. -/
def sumCNs (l : List LedgerEntry) : ℚ :=
  ((l.filter fun e => e.type == EntryType.CN).map fun e => e.cnAmount.getD 0).sum

/-- Quantity an item contributes to the PCR bucket. -/
def pcrContrib (it : InvoiceItem) : ℚ :=
  let s := normSize it.size
  if !s.isEmpty && s.contains 'R' then it.quantity else 0

/-- Quantity an item contributes to the nylon bucket. -/
def nylonContrib (it : InvoiceItem) : ℚ :=
  let s := normSize it.size
  if !s.isEmpty && !s.contains 'R' && s.contains 'D' then it.quantity else 0

/-- Quantity an item contributes to the 2-wheeler bucket. -/
def twoWheelerContrib (it : InvoiceItem) : ℚ :=
  let s := normSize it.size
  if !s.isEmpty && !s.contains 'R' && !s.contains 'D' && !hasAsciiLetter s then
    it.quantity
  else 0

/-- Bucket quantity an original-sale invoice contributes via its items. -/
def entryContrib (f : InvoiceItem → ℚ) (e : LedgerEntry) : ℚ :=
  if e.type == EntryType.INVOICE && e.originalRefId.isNone then
    ((itemsToProcess e).map f).sum
  else 0

/-- Total bucket quantity of a list, specification style. -/
def sumContrib (f : InvoiceItem → ℚ) (l : List LedgerEntry) : ℚ :=
  (l.map (entryContrib f)).sum

/-- Two entries agreeing on every field except possibly `status` and `notes`. -/
def sameExceptStatusNotes (a b : LedgerEntry) : Prop :=
  { a with status := b.status, notes := b.notes } = b

/-! ## Concrete sample entries used by witnesses and counterexamples -/

/-- Sample pending invoice of amount 1000 carrying a note. -/
def sInv : LedgerEntry :=
  { id := "i1", type := EntryType.INVOICE, date := "2024-01-01", invoiceNo := "INV-1",
    invoiceAmount := some 1000, status := some InvStatus.PENDING, notes := some "X" }

/-- Sample payment entry. -/
def sPay : LedgerEntry :=
  { id := "p1", type := EntryType.PAYMENT, date := "2024-01-02", invoiceNo := "-",
    paymentAmount := some 300 }

/-- Sample balance-forward invoice (originalRefId set) of amount 600. -/
def sBal : LedgerEntry :=
  { id := "b0", type := EntryType.INVOICE, date := "2024-01-03", invoiceNo := "INV-9-BAL",
    invoiceAmount := some 600, status := some InvStatus.PENDING, originalRefId := some "i9" }

/-- Sample entry dated 2024-01-05 with invoice number INV-2. -/
def sInv2 : LedgerEntry :=
  { id := "a2", type := EntryType.INVOICE, date := "2024-01-05", invoiceNo := "INV-2" }

/-- Sample entry dated 2024-01-05 with invoice number INV-10. -/
def sInv10 : LedgerEntry :=
  { id := "a10", type := EntryType.INVOICE, date := "2024-01-05", invoiceNo := "INV-10" }

/-- Sample already-paid invoice. -/
def sPaid : LedgerEntry :=
  { id := "i2", type := EntryType.INVOICE, date := "2024-01-02", invoiceNo := "INV-2",
    invoiceAmount := some 500, status := some InvStatus.PAID }

/-! ## Characterization of the metrics passes -/

/-- The global pass accumulates exactly the three specification sums. -/
theorem foldl_globalStep (l : List LedgerEntry) (acc : ℚ × ℚ × ℚ) :
    l.foldl globalStep acc =
      (acc.1 + sumOriginalInvoiced l, acc.2.1 + sumPayments l, acc.2.2 + sumCNs l) := by
  induction l generalizing acc with
  | nil => simp [sumOriginalInvoiced, sumPayments, sumCNs]
  | cons e rest ih =>
    rw [List.foldl_cons, ih]
    have hsplit : ∀ x y z : ℚ × ℚ × ℚ, x = y → (x = z ↔ y = z) := by intro x y z h; rw [h]
    rcases he : e.type with _ | _ | _
    · by_cases ho : e.originalRefId = none
      · simp [globalStep, he, ho, sumOriginalInvoiced, sumPayments, sumCNs, List.filter_cons,
          add_comm, add_assoc, add_left_comm]
      · simp [globalStep, he, ho, sumOriginalInvoiced, sumPayments, sumCNs, List.filter_cons,
          Option.isNone_iff_eq_none]
    · simp [globalStep, he, sumOriginalInvoiced, sumPayments, sumCNs, List.filter_cons,
        add_comm, add_assoc, add_left_comm]
    · simp [globalStep, he, sumOriginalInvoiced, sumPayments, sumCNs, List.filter_cons,
        add_comm, add_assoc, add_left_comm]

/-- The per-item bucket fold accumulates exactly the three contribution sums. -/
theorem foldl_bucketAdd (its : List InvoiceItem) (acc : ScopedAcc) :
    its.foldl bucketAdd acc =
      { acc with
        qtyPcr := acc.qtyPcr + (its.map pcrContrib).sum
        qtyNylon := acc.qtyNylon + (its.map nylonContrib).sum
        qty2Wheeler := acc.qty2Wheeler + (its.map twoWheelerContrib).sum } := by
  induction its generalizing acc with
  | nil => simp
  | cons it rest ih =>
    rw [List.foldl_cons, ih]
    simp only [bucketAdd, pcrContrib, nylonContrib, twoWheelerContrib, List.map_cons,
      List.sum_cons]
    split_ifs <;>
      simp_all [add_comm, add_assoc, add_left_comm]

/-- The scoped pass accumulates exactly the specification sums of each field. -/
theorem foldl_scopedStep (l : List LedgerEntry) (acc : ScopedAcc) :
    l.foldl scopedStep acc =
      { totalInvoiced := acc.totalInvoiced + sumOriginalInvoiced l
        totalPaid := acc.totalPaid + sumPayments l
        totalCN := acc.totalCN + sumCNs l
        qtyPcr := acc.qtyPcr + sumContrib pcrContrib l
        qtyNylon := acc.qtyNylon + sumContrib nylonContrib l
        qty2Wheeler := acc.qty2Wheeler + sumContrib twoWheelerContrib l } := by
  induction l generalizing acc with
  | nil => simp [sumOriginalInvoiced, sumPayments, sumCNs, sumContrib]
  | cons e rest ih =>
    rw [List.foldl_cons, ih]
    rcases he : e.type with _ | _ | _
    · by_cases ho : e.originalRefId = none
      · simp [scopedStep, he, ho, foldl_bucketAdd, sumOriginalInvoiced, sumPayments, sumCNs,
          sumContrib, entryContrib, List.filter_cons, add_comm, add_assoc, add_left_comm]
      · simp [scopedStep, he, ho, sumOriginalInvoiced, sumPayments, sumCNs, sumContrib,
          entryContrib, List.filter_cons, Option.isNone_iff_eq_none]
    · simp [scopedStep, he, sumOriginalInvoiced, sumPayments, sumCNs, sumContrib,
        entryContrib, List.filter_cons, add_comm, add_assoc, add_left_comm]
    · simp [scopedStep, he, sumOriginalInvoiced, sumPayments, sumCNs, sumContrib,
        entryContrib, List.filter_cons, add_comm, add_assoc, add_left_comm]

/-- Closed form of `computeStats` in terms of the specification sums. -/
theorem computeStats_eq (v a : List LedgerEntry) :
    computeStats v a =
      { totalInvoiced := sumOriginalInvoiced v
        totalPaid := sumPayments v
        totalCN := sumCNs v
        outstanding := sumOriginalInvoiced a - sumPayments a - sumCNs a
        qtyPcr := sumContrib pcrContrib v
        qtyNylon := sumContrib nylonContrib v
        qty2Wheeler := sumContrib twoWheelerContrib v } := by
  simp [computeStats, foldl_globalStep, foldl_scopedStep]

/-- The visible list is a permutation of the (unsorted) filtered data. -/
theorem visibleEntries_perm (l : List LedgerEntry) (f : String) :
    (visibleEntries l f).Perm
      (if f.isEmpty then l else l.filter fun e => e.date.startsWith f) := by
  unfold visibleEntries
  exact List.perm_insertionSort _ _

/-- C1: for every entry list and every filter state, the `outstanding` field of
`computeStats` equals the sum of `invoiceAmount` over original (no
`originalRefId`) `INVOICE` entries minus the sum of `paymentAmount` over
`PAYMENT` entries minus the sum of `cnAmount` over `CN` entries, taken over the
entire list, not the filtered view. -/
theorem c1_outstanding_global_formula (l : List LedgerEntry) (f : String) :
    (computeStats (visibleEntries l f) l).outstanding =
      sumOriginalInvoiced l - sumPayments l - sumCNs l := by
  rw [computeStats_eq]

/-- C2 counterexample: a ledger holding only a balance-forward invoice of amount
600 (with `originalRefId` set and status `PENDING`) yields outstanding 0, so the
balance-forward invoice is *not* included in the outstanding computation by
virtue of its own `invoiceAmount` and `status`. -/
theorem c2_counterexample :
    sBal.type = EntryType.INVOICE ∧ sBal.originalRefId = some "i9" ∧
    sBal.invoiceAmount = some 600 ∧ sBal.status = some InvStatus.PENDING ∧
    (computeStats (visibleEntries [sBal] "") [sBal]).outstanding = 0 ∧ (0 : ℚ) ≠ 600 := by
  refine ⟨rfl, rfl, rfl, rfl, ?_, by norm_num⟩
  rw [computeStats_eq]
  have hzi : sumOriginalInvoiced [sBal] = 0 := by
    simp [sumOriginalInvoiced, sBal, List.filter_cons]
  have hzp : sumPayments [sBal] = 0 := by
    simp [sumPayments, sBal, List.filter_cons]
  have hzc : sumCNs [sBal] = 0 := by
    simp [sumCNs, sBal, List.filter_cons]
  simp [hzi, hzp, hzc]

/-- C2 (amended): a balance-forward invoice (an `INVOICE` with `originalRefId`
set) contributes nothing to any statistic: appending one leaves `totalInvoiced`,
the category quantity buckets, `totalPaid`, `totalCN` — in any filtered or
unfiltered view — and also the global `outstanding` unchanged.  (The original
claim said it is included in the outstanding computation via its own
`invoiceAmount` and `status`; the code excludes it there as well, the remaining
balance being represented by the original invoice's amount net of the CN.) -/
theorem c2_balance_forward_excluded (l : List LedgerEntry) (f : String) (e : LedgerEntry)
    (htype : e.type = EntryType.INVOICE) (href : e.originalRefId ≠ none) :
    computeStats (visibleEntries (l ++ [e]) f) (l ++ [e]) =
      computeStats (visibleEntries l f) l := by
  have main : ∀ S : List LedgerEntry → ℚ,
      (∀ {x y : List LedgerEntry}, x.Perm y → S x = S y) →
      (∀ x y : List LedgerEntry, S (x ++ y) = S x + S y) →
      S [e] = 0 →
      S (visibleEntries (l ++ [e]) f) = S (visibleEntries l f) ∧ S (l ++ [e]) = S l := by
    intro S hSp hSa hSe
    have hS0 : S ([] : List LedgerEntry) = 0 := by
      have h := hSa [] []
      simpa using h
    constructor
    · rw [hSp (visibleEntries_perm (l ++ [e]) f), hSp (visibleEntries_perm l f)]
      by_cases hf : f.isEmpty
      · simp [hf, hSa, hSe]
      · simp only [hf, if_neg, Bool.false_eq_true, List.filter_append, hSa]
        rcases hs : e.date.startsWith f <;>
          simp [List.filter_cons, hs, hSe, hS0, hSa]
    · rw [hSa, hSe, add_zero]
  have h1 := main sumOriginalInvoiced
    (fun h => (List.Perm.map _ (List.Perm.filter _ h)).sum_eq)
    (fun x y => by simp [sumOriginalInvoiced, List.filter_append])
    (by simp [sumOriginalInvoiced, List.filter_cons, htype, Option.isNone_iff_eq_none, href])
  have h2 := main sumPayments
    (fun h => (List.Perm.map _ (List.Perm.filter _ h)).sum_eq)
    (fun x y => by simp [sumPayments, List.filter_append])
    (by simp [sumPayments, List.filter_cons, htype])
  have h3 := main sumCNs
    (fun h => (List.Perm.map _ (List.Perm.filter _ h)).sum_eq)
    (fun x y => by simp [sumCNs, List.filter_append])
    (by simp [sumCNs, List.filter_cons, htype])
  have h4 := main (sumContrib pcrContrib)
    (fun h => (List.Perm.map _ h).sum_eq)
    (fun x y => by simp [sumContrib])
    (by simp [sumContrib, entryContrib, htype, Option.isNone_iff_eq_none, href])
  have h5 := main (sumContrib nylonContrib)
    (fun h => (List.Perm.map _ h).sum_eq)
    (fun x y => by simp [sumContrib])
    (by simp [sumContrib, entryContrib, htype, Option.isNone_iff_eq_none, href])
  have h6 := main (sumContrib twoWheelerContrib)
    (fun h => (List.Perm.map _ h).sum_eq)
    (fun x y => by simp [sumContrib])
    (by simp [sumContrib, entryContrib, htype, Option.isNone_iff_eq_none, href])
  rw [computeStats_eq, computeStats_eq]
  simp [Stats.mk.injEq, h1.1, h1.2, h2.1, h2.2, h3.1, h3.2, h4.1, h5.1, h6.1]

/-- C2 witness: instantiation of the amended exclusion theorem at a concrete
ledger. -/
theorem c2_witness :
    computeStats (visibleEntries ([sInv] ++ [sBal]) "") ([sInv] ++ [sBal]) =
      computeStats (visibleEntries [sInv] "") [sInv] :=
  c2_balance_forward_excluded [sInv] "" sBal rfl (by decide)

/-- C6: classification of an original-sale item's normalized size code: a code
containing `R` counts its quantity as PCR (checked before `D`, so a code with
both counts only as PCR); otherwise a code containing `D` counts as nylon;
otherwise a non-empty code without any A-Z letter counts as 2-wheeler; an empty
code, or one whose only letters are neither `R` nor `D`, contributes to no
bucket.  In particular "195/55-R16" is PCR, "100/90-D17" is nylon, "90/100" is
2-wheeler, and "" and "XL" contribute nothing. -/
theorem c6_classification :
    (∀ (acc : ScopedAcc) (it : InvoiceItem), (normSize it.size).contains 'R' = true →
      bucketAdd acc it = { acc with qtyPcr := acc.qtyPcr + it.quantity }) ∧
    (∀ (acc : ScopedAcc) (it : InvoiceItem), (normSize it.size).contains 'R' = false →
      (normSize it.size).contains 'D' = true →
      bucketAdd acc it = { acc with qtyNylon := acc.qtyNylon + it.quantity }) ∧
    (∀ (acc : ScopedAcc) (it : InvoiceItem), normSize it.size ≠ [] →
      (normSize it.size).contains 'R' = false →
      (normSize it.size).contains 'D' = false →
      hasAsciiLetter (normSize it.size) = false →
      bucketAdd acc it = { acc with qty2Wheeler := acc.qty2Wheeler + it.quantity }) ∧
    (∀ (acc : ScopedAcc) (it : InvoiceItem),
      (normSize it.size = [] ∨
        ((normSize it.size).contains 'R' = false ∧ (normSize it.size).contains 'D' = false ∧
          hasAsciiLetter (normSize it.size) = true)) →
      bucketAdd acc it = acc) ∧
    (∀ (acc : ScopedAcc) (q u : ℚ) (p i : String),
      bucketAdd acc ⟨i, "195/55-R16", p, q, u⟩ = { acc with qtyPcr := acc.qtyPcr + q }) ∧
    (∀ (acc : ScopedAcc) (q u : ℚ) (p i : String),
      bucketAdd acc ⟨i, "100/90-D17", p, q, u⟩ = { acc with qtyNylon := acc.qtyNylon + q }) ∧
    (∀ (acc : ScopedAcc) (q u : ℚ) (p i : String),
      bucketAdd acc ⟨i, "90/100", p, q, u⟩ = { acc with qty2Wheeler := acc.qty2Wheeler + q }) ∧
    (∀ (acc : ScopedAcc) (q u : ℚ) (p i : String),
      bucketAdd acc ⟨i, "", p, q, u⟩ = acc) ∧
    (∀ (acc : ScopedAcc) (q u : ℚ) (p i : String),
      bucketAdd acc ⟨i, "XL", p, q, u⟩ = acc) := by
  refine ⟨?_, ?_, ?_, ?_, ?_, ?_, ?_, ?_, ?_⟩
  · intro acc it h
    have hmem : 'R' ∈ normSize it.size := by simpa using h
    have hne : (normSize it.size).isEmpty = false := by
      rcases hn : normSize it.size with _ | ⟨c, cs⟩
      · rw [hn] at hmem; simp at hmem
      · rfl
    simp [bucketAdd, hmem, hne]
  · intro acc it hR hD
    have hmR : 'R' ∉ normSize it.size := by simpa using hR
    have hmD : 'D' ∈ normSize it.size := by simpa using hD
    have hne : (normSize it.size).isEmpty = false := by
      rcases hn : normSize it.size with _ | ⟨c, cs⟩
      · rw [hn] at hmD; simp at hmD
      · rfl
    simp [bucketAdd, hmR, hmD, hne]
  · intro acc it hne hR hD hA
    have hmR : 'R' ∉ normSize it.size := by simpa using hR
    have hmD : 'D' ∉ normSize it.size := by simpa using hD
    have hne' : (normSize it.size).isEmpty = false := by
      rcases hn : normSize it.size with _ | ⟨c, cs⟩
      · exact absurd hn hne
      · rfl
    simp [bucketAdd, hmR, hmD, hA, hne']
  · intro acc it h
    rcases h with h | ⟨hR, hD, hA⟩
    · simp [bucketAdd, h]
    · have hmR : 'R' ∉ normSize it.size := by simpa using hR
      have hmD : 'D' ∉ normSize it.size := by simpa using hD
      rcases hb : (normSize it.size).isEmpty with _ | _
      · simp [bucketAdd, hmR, hmD, hA, hb]
      · simp [bucketAdd, hb]
  · intro acc q u p i
    have h1 : (normSize "195/55-R16").isEmpty = false := by decide
    have h2 : 'R' ∈ normSize "195/55-R16" := by decide
    simp [bucketAdd, h1, h2]
  · intro acc q u p i
    have h1 : (normSize "100/90-D17").isEmpty = false := by decide
    have h2 : 'R' ∉ normSize "100/90-D17" := by decide
    have h3 : 'D' ∈ normSize "100/90-D17" := by decide
    simp [bucketAdd, h1, h2, h3]
  · intro acc q u p i
    have h1 : (normSize "90/100").isEmpty = false := by decide
    have h2 : 'R' ∉ normSize "90/100" := by decide
    have h3 : 'D' ∉ normSize "90/100" := by decide
    have h4 : hasAsciiLetter (normSize "90/100") = false := by decide
    simp [bucketAdd, h1, h2, h3, h4]
  · intro acc q u p i
    have h1 : (normSize "").isEmpty = true := by decide
    simp [bucketAdd, h1]
  · intro acc q u p i
    have h1 : (normSize "XL").isEmpty = false := by decide
    have h2 : 'R' ∉ normSize "XL" := by decide
    have h3 : 'D' ∉ normSize "XL" := by decide
    have h4 : hasAsciiLetter (normSize "XL") = true := by decide
    simp [bucketAdd, h1, h2, h3, h4]

/-- C6 witness: instantiation of the classification theorem at concrete inputs. -/
theorem c6_witness :
    bucketAdd ⟨0, 0, 0, 0, 0, 0⟩ ⟨"", "195/55-r16", "", 4, 0⟩ =
      { totalInvoiced := 0, totalPaid := 0, totalCN := 0,
        qtyPcr := 0 + 4, qtyNylon := 0, qty2Wheeler := 0 } :=
  c6_classification.1 ⟨0, 0, 0, 0, 0, 0⟩ ⟨"", "195/55-r16", "", 4, 0⟩ (by decide)

/-- The visible-sort comparator is transitive. -/
theorem entryLe_trans (a b c : LedgerEntry) (hab : entryLe a b) (hbc : entryLe b c) :
    entryLe a c := by
  unfold entryLe at *
  by_cases h1 : a.date = b.date <;> by_cases h2 : b.date = c.date
  · rw [if_neg (not_not_intro h1)] at hab
    rw [if_neg (not_not_intro h2)] at hbc
    rw [if_neg (not_not_intro (h1.trans h2))]
    exact le_trans hab hbc
  · rw [if_neg (not_not_intro h1)] at hab
    rw [if_pos h2] at hbc
    have hlt : a.date.data < c.date.data := by rw [h1]; exact hbc
    have h3 : a.date ≠ c.date := fun h => absurd (h ▸ hlt) (lt_irrefl _)
    rw [if_pos h3]; exact hlt
  · rw [if_pos h1] at hab
    rw [if_neg (not_not_intro h2)] at hbc
    have hlt : a.date.data < c.date.data := by rw [← h2]; exact hab
    have h3 : a.date ≠ c.date := fun h => absurd (h ▸ hlt) (lt_irrefl _)
    rw [if_pos h3]; exact hlt
  · rw [if_pos h1] at hab
    rw [if_pos h2] at hbc
    have hlt := lt_trans hab hbc
    have h3 : a.date ≠ c.date := fun h => absurd (h ▸ hlt) (lt_irrefl _)
    rw [if_pos h3]; exact hlt

/-- The visible-sort comparator is total. -/
theorem entryLe_total (a b : LedgerEntry) : entryLe a b ∨ entryLe b a := by
  unfold entryLe
  by_cases h : a.date = b.date
  · rw [if_neg (not_not_intro h), if_neg (not_not_intro h.symm)]
    exact le_total _ _
  · have hne : a.date.data ≠ b.date.data := fun hd => h (by
      cases hda : a.date
      cases hdb : b.date
      rw [hda, hdb] at hd
      simp_all)
    rw [if_pos h, if_pos (Ne.symm h)]
    exact lt_or_gt_of_ne hne |>.imp id id

instance : IsTrans LedgerEntry entryLe := ⟨entryLe_trans⟩

instance : IsTotal LedgerEntry entryLe := ⟨entryLe_total⟩

/-- C7: `visibleEntries` returns a permutation of the filtered data that is
sorted by `entryLe` (date ascending, then numeric-aware case-insensitive
invoice number); with equal dates, an entry numbered "INV-2" always precedes
one numbered "INV-10" under the comparator and never the reverse; and entries
with equal date and invoice number retain their input order (stable sort). -/
theorem c7_sort_order (l : List LedgerEntry) (f : String) :
    (visibleEntries l f).Perm
        (if f.isEmpty then l else l.filter fun e => e.date.startsWith f) ∧
    List.Pairwise entryLe (visibleEntries l f) ∧
    (∀ a b : LedgerEntry, a.date = b.date → a.invoiceNo = "INV-2" → b.invoiceNo = "INV-10" →
      entryLe a b ∧ ¬ entryLe b a) ∧
    (∀ a b : LedgerEntry, a.date = b.date → a.invoiceNo = b.invoiceNo →
      [a, b].Sublist (if f.isEmpty then l else l.filter fun e => e.date.startsWith f) →
      [a, b].Sublist (visibleEntries l f)) := by
  refine ⟨visibleEntries_perm l f, ?_, ?_, ?_⟩
  · unfold visibleEntries
    exact List.sorted_insertionSort entryLe _
  · intro a b hd h2 h10
    constructor
    · unfold entryLe
      rw [if_neg (not_not_intro hd), h2, h10]
      decide
    · unfold entryLe
      rw [if_neg (not_not_intro hd.symm), h2, h10]
      decide
  · intro a b hd hno hsub
    unfold visibleEntries
    refine List.sublist_insertionSort ?_ hsub
    have hle : entryLe a b := by
      unfold entryLe
      rw [if_neg (not_not_intro hd), hno]
    exact List.pairwise_pair.mpr hle

/-- C7 witness: instantiation at the two concrete same-date entries. -/
theorem c7_witness : entryLe sInv2 sInv10 ∧ ¬ entryLe sInv10 sInv2 :=
  (c7_sort_order [] "").2.2.1 sInv2 sInv10 rfl rfl rfl

/-! ## Structure of the CN application engine -/

instance : IsTrans LedgerEntry dateLe := ⟨fun _ _ _ => le_trans⟩

instance : IsTotal LedgerEntry dateLe := ⟨fun _ _ => le_total _ _⟩

/-- The selected target is a pending invoice of the list. -/
theorem firstPending_mem {entries : List LedgerEntry} {t : LedgerEntry}
    (hp : firstPending entries = some t) :
    t ∈ entries ∧ t.type = EntryType.INVOICE ∧ t.status = some InvStatus.PENDING := by
  unfold firstPending at hp
  obtain ⟨ys, hys⟩ := List.head?_eq_some_iff.mp hp
  have hmem : t ∈ pendingSorted entries := by rw [hys]; exact List.mem_cons_self _ _
  have hmem2 : t ∈ entries.filter isPendingInvoice :=
    (List.perm_insertionSort dateLe _).mem_iff.mp hmem
  obtain ⟨hin, hpend⟩ := List.mem_filter.mp hmem2
  unfold isPendingInvoice at hpend
  simp only [Bool.and_eq_true, beq_iff_eq] at hpend
  exact ⟨hin, hpend.1, hpend.2⟩

/-- The selected target has the earliest date among pending invoices. -/
theorem firstPending_minDate {entries : List LedgerEntry} {t : LedgerEntry}
    (hp : firstPending entries = some t) :
    ∀ e ∈ entries, isPendingInvoice e = true → t.date.data ≤ e.date.data := by
  intro e he hpe
  unfold firstPending at hp
  obtain ⟨ys, hys⟩ := List.head?_eq_some_iff.mp hp
  have hsorted : List.Sorted dateLe (pendingSorted entries) :=
    List.sorted_insertionSort dateLe _
  have hmem : e ∈ pendingSorted entries :=
    (List.perm_insertionSort dateLe _).symm.mem_iff.mp (List.mem_filter.mpr ⟨he, hpe⟩)
  rw [hys] at hsorted hmem
  rcases List.mem_cons.mp hmem with h | h
  · rw [h]
  · exact (List.pairwise_cons.mp hsorted).1 e h

/-- In a list with pairwise distinct ids, `findIdx` on the id of a member finds
exactly that member. -/
theorem findIdx_id_of_nodup {entries : List LedgerEntry} {t : LedgerEntry}
    (hids : (entries.map LedgerEntry.id).Nodup) (ht : t ∈ entries) :
    entries.findIdx (fun e => e.id == t.id) < entries.length ∧
      entries[entries.findIdx (fun e => e.id == t.id)]? = some t := by
  have hlt : entries.findIdx (fun e => e.id == t.id) < entries.length :=
    List.findIdx_lt_length.mpr ⟨t, ht, by simp⟩
  refine ⟨hlt, ?_⟩
  rw [List.getElem?_eq_getElem hlt]
  have hpfound : (entries[entries.findIdx (fun e => e.id == t.id)].id == t.id) = true :=
    @List.findIdx_getElem _ _ _ hlt
  have hfid : entries[entries.findIdx (fun e => e.id == t.id)].id = t.id := by
    simpa using hpfound
  have hfmem : entries[entries.findIdx (fun e => e.id == t.id)] ∈ entries :=
    List.getElem_mem hlt
  exact congrArg some (List.inj_on_of_nodup_map hids hfmem ht hfid)

/-- Branch equation: no pending invoice, only the CN entry is appended. -/
theorem applyCreditNote_none (entries : List LedgerEntry) (amountVal : ℚ)
    (transDate transNotes cnId balId : String) (fmt : ℚ → String)
    (hp : firstPending entries = none) :
    applyCreditNote entries amountVal transDate transNotes cnId balId fmt =
      entries ++ [mkCNEntry cnId transDate amountVal transNotes] := by
  simp only [applyCreditNote, hp]

/-- Branch equation: non-positive amount, only the CN entry is appended. -/
theorem applyCreditNote_nonpos (entries : List LedgerEntry) (amountVal : ℚ)
    (transDate transNotes cnId balId : String) (fmt : ℚ → String)
    (h : amountVal ≤ 0) :
    applyCreditNote entries amountVal transDate transNotes cnId balId fmt =
      entries ++ [mkCNEntry cnId transDate amountVal transNotes] := by
  unfold applyCreditNote
  cases hp : firstPending entries with
  | none => rfl
  | some t => simp only [if_neg (not_lt.mpr h)]

/-- Branch equation: settle (near-match or overshoot) on the target index. -/
theorem applyCreditNote_settle {entries : List LedgerEntry} {amountVal : ℚ}
    (transDate transNotes cnId balId : String) (fmt : ℚ → String) {t : LedgerEntry}
    (hp : firstPending entries = some t) (h0 : 0 < amountVal)
    (hcond : |amountVal - t.invoiceAmount.getD 0| < 1 / 100 ∨ t.invoiceAmount.getD 0 < amountVal) :
    applyCreditNote entries amountVal transDate transNotes cnId balId fmt =
      entries.modify settleByCN (entries.findIdx (fun e => e.id == t.id)) ++
        [mkCNEntry cnId transDate amountVal transNotes] := by
  unfold applyCreditNote
  rw [hp]
  by_cases hnear : |amountVal - t.invoiceAmount.getD 0| < 1 / 100
  · simp only [if_pos h0, if_pos hnear]
  · have hgt : t.invoiceAmount.getD 0 < amountVal := hcond.resolve_left hnear
    simp only [if_pos h0, if_neg hnear, if_neg (not_lt.mpr (le_of_lt hgt))]

/-- Branch equation: adjust-and-split on the target index. -/
theorem applyCreditNote_adjust {entries : List LedgerEntry} {amountVal : ℚ}
    (transDate transNotes cnId balId : String) (fmt : ℚ → String) {t : LedgerEntry}
    (hp : firstPending entries = some t) (h0 : 0 < amountVal)
    (hfar : ¬ |amountVal - t.invoiceAmount.getD 0| < 1 / 100)
    (hlt : amountVal < t.invoiceAmount.getD 0) :
    applyCreditNote entries amountVal transDate transNotes cnId balId fmt =
      entries.modify (adjustByCN fmt amountVal) (entries.findIdx (fun e => e.id == t.id)) ++
        [mkBalanceInvoice t amountVal balId, mkCNEntry cnId transDate amountVal transNotes] := by
  unfold applyCreditNote
  rw [hp]
  simp only [if_pos h0, if_neg hfar, if_pos hlt, List.append_assoc, List.singleton_append]

/-- Positions below the original length are unchanged when the result is the
original list plus appended entries. -/
theorem cnFrame_unchanged {entries L r : List LedgerEntry} (hre : r = entries ++ L) :
    ∀ (j : ℕ) (e : LedgerEntry), entries[j]? = some e → r[j]? = some e := by
  intro j e hj
  rw [hre, List.getElem?_append_left (List.getElem?_eq_some_iff.mp hj).1, hj]

/-- Positions below the original length after a modify-and-append result. -/
theorem cnFrame_modify {entries tail r : List LedgerEntry} {f : LedgerEntry → LedgerEntry}
    {i : ℕ} (hre : r = entries.modify f i ++ tail) :
    ∀ (j : ℕ) (e : LedgerEntry), entries[j]? = some e →
      (j ≠ i → r[j]? = some e) ∧ (j = i → r[j]? = some (f e)) := by
  intro j e hj
  have hjlt : j < entries.length := (List.getElem?_eq_some_iff.mp hj).1
  have hjlt' : j < (entries.modify f i).length := by rw [List.length_modify]; exact hjlt
  have hres : r[j]? = (fun a => if i = j then f a else a) <$> entries[j]? := by
    rw [hre, List.getElem?_append_left hjlt', List.getElem?_modify]
  rw [hj] at hres
  constructor
  · intro hne
    rw [hres]
    simp [Ne.symm hne]
  · intro heq
    rw [hres]
    simp [heq]

/-- C5: with no pending invoice in the list, applying a credit note of any
positive amount returns the original list unchanged with exactly one new `CN`
entry appended, carrying the fixed sentinel invoice number, the amount as
`cnAmount`, and the supplied notes. -/
theorem c5_unattached_cn (entries : List LedgerEntry) (amount : ℚ)
    (d n cid bid : String) (fmt : ℚ → String)
    (hnp : ∀ e ∈ entries, isPendingInvoice e = false) (h0 : 0 < amount) :
    applyCreditNote entries amount d n cid bid fmt =
      entries ++ [mkCNEntry cid d amount n] ∧
    (mkCNEntry cid d amount n).type = EntryType.CN ∧
    (mkCNEntry cid d amount n).invoiceNo = "CN-ADJ" ∧
    (mkCNEntry cid d amount n).cnAmount = some amount ∧
    (mkCNEntry cid d amount n).notes = some n := by
  have hfilter : entries.filter isPendingInvoice = [] :=
    List.filter_eq_nil_iff.mpr (fun a ha => by simp [hnp a ha])
  have hfp : firstPending entries = none := by
    unfold firstPending pendingSorted
    rw [hfilter]
    rfl
  exact ⟨applyCreditNote_none _ _ _ _ _ _ _ hfp, rfl, rfl, rfl, rfl⟩

/-- C5 witness: a ledger holding only a payment gains exactly the CN entry. -/
theorem c5_witness :
    applyCreditNote [sPay] 250 "2024-03-01" "note" "cn1" "b1" (fun _ => "F") =
      [sPay] ++ [mkCNEntry "cn1" "2024-03-01" 250 "note"] :=
  (c5_unattached_cn [sPay] 250 "2024-03-01" "note" "cn1" "b1" (fun _ => "F")
    (by decide) (by norm_num)).1

/-- C10: a non-positive credit-note amount never reaches the adjustment branch:
no invoice is mutated and no balance invoice is created, but a `CN` entry
carrying the non-positive `cnAmount` is still appended. -/
theorem c10_nonpositive_guard (entries : List LedgerEntry) (amount : ℚ)
    (d n cid bid : String) (fmt : ℚ → String) (h : amount ≤ 0) :
    applyCreditNote entries amount d n cid bid fmt =
      entries ++ [mkCNEntry cid d amount n] ∧
    (mkCNEntry cid d amount n).cnAmount = some amount :=
  ⟨applyCreditNote_nonpos _ _ _ _ _ _ _ h, rfl⟩

/-- C10 witness: a CN of amount -5 on a ledger with a pending invoice leaves the
invoice untouched and appends only the CN entry. -/
theorem c10_witness :
    applyCreditNote [sInv] (-5) "2024-02-01" "n" "cn1" "b1" (fun _ => "F") =
      [sInv] ++ [mkCNEntry "cn1" "2024-02-01" (-5) "n"] :=
  (c10_nonpositive_guard [sInv] (-5) "2024-02-01" "n" "cn1" "b1" (fun _ => "F")
    (by norm_num)).1

/-- C4: when the CN amount is within 0.01 of the first pending invoice's amount
or strictly larger, that invoice (and no other entry) is settled: its status
becomes `PAID` with " [Settled by CN]" appended to its notes, no balance invoice
is created, any surplus is dropped, and exactly one CN entry is appended. -/
theorem c4_settle_first_pending (entries : List LedgerEntry) (amount : ℚ)
    (d n cid bid : String) (fmt : ℚ → String) (t : LedgerEntry)
    (hids : (entries.map LedgerEntry.id).Nodup)
    (hp : firstPending entries = some t) (h0 : 0 < amount)
    (hcond : |amount - t.invoiceAmount.getD 0| < 1 / 100 ∨ t.invoiceAmount.getD 0 < amount) :
    t ∈ entries ∧ t.type = EntryType.INVOICE ∧ t.status = some InvStatus.PENDING ∧
    (∀ e ∈ entries, isPendingInvoice e = true → t.date.data ≤ e.date.data) ∧
    ∃ i, i < entries.length ∧ entries[i]? = some t ∧
      applyCreditNote entries amount d n cid bid fmt =
        entries.modify settleByCN i ++ [mkCNEntry cid d amount n] ∧
      (entries.modify settleByCN i)[i]? =
        some { t with status := some InvStatus.PAID,
                      notes := some (t.notes.getD "" ++ " [Settled by CN]") } ∧
      (∀ j : ℕ, j ≠ i → (entries.modify settleByCN i)[j]? = entries[j]?) ∧
      (applyCreditNote entries amount d n cid bid fmt).length = entries.length + 1 := by
  obtain ⟨hmem, htype, hstatus⟩ := firstPending_mem hp
  obtain ⟨hlt, hget⟩ := findIdx_id_of_nodup hids hmem
  have heq := applyCreditNote_settle d n cid bid fmt hp h0 hcond
  refine ⟨hmem, htype, hstatus, firstPending_minDate hp,
    entries.findIdx (fun e => e.id == t.id), hlt, hget, heq, ?_, ?_, ?_⟩
  · rw [List.getElem?_modify, hget]
    simp [settleByCN]
  · intro j hj
    rw [List.getElem?_modify]
    cases hj' : entries[j]? with
    | none => rfl
    | some e => simp [Ne.symm hj]
  · rw [heq]
    simp [List.length_modify]

/-- C4 witness: an exact-amount CN settles the single pending invoice. -/
theorem c4_witness :
    (applyCreditNote [sInv] 1000 "2024-02-01" "n" "cn1" "b1" (fun _ => "F")).length =
      [sInv].length + 1 := by
  obtain ⟨-, -, -, -, i, -, -, -, -, -, hlen⟩ :=
    c4_settle_first_pending [sInv] 1000 "2024-02-01" "n" "cn1" "b1" (fun _ => "F") sInv
      (by decide) (by decide) (by norm_num)
      (Or.inl (by norm_num [sInv]))
  exact hlen

/-- C3 counterexample: adjusting a 1000-amount pending invoice carrying notes
"X" by a 400 CN creates a balance-forward invoice whose notes are the fixed
string "Balance after CN adjustment on INV-1", not a copy of the target's
notes — so the notes field is *not* copied unchanged from the target. -/
theorem c3_counterexample :
    ((applyCreditNote [sInv] 400 "2024-02-01" "" "cn1" "b1" fun _ => "F")[1]?.map
        fun e => e.notes) = some (some "Balance after CN adjustment on INV-1") ∧
    sInv.notes = some "X" ∧
    (some "Balance after CN adjustment on INV-1" : Option String) ≠ some "X" := by
  refine ⟨?_, rfl, by decide⟩
  norm_num [applyCreditNote, firstPending, pendingSorted, List.insertionSort,
    isPendingInvoice, sInv, List.orderedInsert, mkBalanceInvoice, mkCNEntry, abs_sub_lt_iff,
    settleByCN, adjustByCN, List.modify, List.findIdx_cons]
  decide

/-- C3 (amended): when the CN amount is positive, strictly below the first
pending invoice's amount and at least 0.01 away from it, the target's status
becomes `ADJUSTED` with " [Adj by CN <formatted amount>]" appended to its notes,
and a balance-forward invoice is created copying the target except: fresh id,
invoiceNo `target + "-BAL"`, amount and unit price equal to the remaining
balance, quantity 1, size "Balance Forward", pattern "-", empty items,
`originalRefId` = target id, status `PENDING`, and notes *overridden* with
"Balance after CN adjustment on <target.invoiceNo>" (`date`, `dueDate` and the
remaining fields are inherited); with the new CN entry the list grows by
exactly 2. -/
theorem c3_adjust_split (entries : List LedgerEntry) (amount : ℚ)
    (d n cid bid : String) (fmt : ℚ → String) (t : LedgerEntry)
    (hids : (entries.map LedgerEntry.id).Nodup)
    (hp : firstPending entries = some t) (h0 : 0 < amount)
    (hlt : amount < t.invoiceAmount.getD 0)
    (hfar : ¬ |amount - t.invoiceAmount.getD 0| < 1 / 100) :
    t ∈ entries ∧ t.type = EntryType.INVOICE ∧ t.status = some InvStatus.PENDING ∧
    (∀ e ∈ entries, isPendingInvoice e = true → t.date.data ≤ e.date.data) ∧
    ∃ i, i < entries.length ∧ entries[i]? = some t ∧
      applyCreditNote entries amount d n cid bid fmt =
        entries.modify (adjustByCN fmt amount) i ++
          [mkBalanceInvoice t amount bid, mkCNEntry cid d amount n] ∧
      (entries.modify (adjustByCN fmt amount) i)[i]? =
        some { t with status := some InvStatus.ADJUSTED,
                      notes := some (t.notes.getD "" ++ " [Adj by CN " ++ fmt amount ++ "]") } ∧
      (∀ j : ℕ, j ≠ i → (entries.modify (adjustByCN fmt amount) i)[j]? = entries[j]?) ∧
      mkBalanceInvoice t amount bid =
        { t with id := bid, invoiceNo := t.invoiceNo ++ "-BAL",
                 invoiceAmount := some (t.invoiceAmount.getD 0 - amount),
                 quantity := some 1, unitPrice := some (t.invoiceAmount.getD 0 - amount),
                 size := some "Balance Forward", pattern := some "-", items := some [],
                 originalRefId := some t.id, status := some InvStatus.PENDING,
                 notes := some ("Balance after CN adjustment on " ++ t.invoiceNo) } ∧
      (applyCreditNote entries amount d n cid bid fmt).length = entries.length + 2 := by
  obtain ⟨hmem, htype, hstatus⟩ := firstPending_mem hp
  obtain ⟨hlti, hget⟩ := findIdx_id_of_nodup hids hmem
  have heq := applyCreditNote_adjust d n cid bid fmt hp h0 hfar hlt
  refine ⟨hmem, htype, hstatus, firstPending_minDate hp,
    entries.findIdx (fun e => e.id == t.id), hlti, hget, heq, ?_, ?_, ?_, ?_⟩
  · rw [List.getElem?_modify, hget]
    simp [adjustByCN]
  · intro j hj
    rw [List.getElem?_modify]
    cases hj' : entries[j]? with
    | none => rfl
    | some e => simp [Ne.symm hj]
  · rfl
  · rw [heq]
    simp [List.length_modify]

/-- C3 witness: the amended split theorem instantiated at a 1000-amount pending
invoice and a 400 CN. -/
theorem c3_witness :
    (applyCreditNote [sInv] 400 "2024-02-01" "n" "cn1" "b1" (fun _ => "F")).length =
      [sInv].length + 2 := by
  obtain ⟨-, -, -, -, i, -, -, -, -, -, -, hlen⟩ :=
    c3_adjust_split [sInv] 400 "2024-02-01" "n" "cn1" "b1" (fun _ => "F") sInv
      (by decide) (by decide) (by norm_num) (by norm_num [sInv])
      (by norm_num [sInv, abs_sub_lt_iff])
  exact hlen

/-- C8: applying a credit note never changes the status of a non-`PENDING`
invoice: every pre-existing position is either returned unchanged, or held a
`PENDING` invoice that transitions to `PAID` (settle) or `ADJUSTED` (adjust);
and at most one position — the single target — changes at all. -/
theorem c8_status_invariant (entries : List LedgerEntry) (amount : ℚ)
    (d n cid bid : String) (fmt : ℚ → String)
    (hids : (entries.map LedgerEntry.id).Nodup) :
    (∀ (j : ℕ) (e : LedgerEntry), entries[j]? = some e →
      ((applyCreditNote entries amount d n cid bid fmt)[j]? = some e) ∨
      (e.type = EntryType.INVOICE ∧ e.status = some InvStatus.PENDING ∧
        (((applyCreditNote entries amount d n cid bid fmt)[j]? = some (settleByCN e) ∧
            (settleByCN e).status = some InvStatus.PAID) ∨
         ((applyCreditNote entries amount d n cid bid fmt)[j]? = some (adjustByCN fmt amount e) ∧
            (adjustByCN fmt amount e).status = some InvStatus.ADJUSTED)))) ∧
    (∀ (j k : ℕ) (e1 e2 : LedgerEntry), entries[j]? = some e1 → entries[k]? = some e2 →
      (applyCreditNote entries amount d n cid bid fmt)[j]? ≠ some e1 →
      (applyCreditNote entries amount d n cid bid fmt)[k]? ≠ some e2 → j = k) := by
  rcases hp : firstPending entries with _ | t
  · have hre := applyCreditNote_none entries amount d n cid bid fmt hp
    refine ⟨fun j e hj => Or.inl (cnFrame_unchanged hre j e hj), ?_⟩
    intro j k e1 e2 hj hk hcj hck
    exact absurd (cnFrame_unchanged hre j e1 hj) hcj
  · by_cases h0 : 0 < amount
    · obtain ⟨hmem, htype, hstatus⟩ := firstPending_mem hp
      obtain ⟨hlti, hget⟩ := findIdx_id_of_nodup hids hmem
      have key : ∀ (f : LedgerEntry → LedgerEntry) (tail : List LedgerEntry),
          applyCreditNote entries amount d n cid bid fmt =
            entries.modify f (entries.findIdx (fun e => e.id == t.id)) ++ tail →
          (∀ (j : ℕ) (e : LedgerEntry), entries[j]? = some e →
            ((applyCreditNote entries amount d n cid bid fmt)[j]? = some e) ∨
            (j = entries.findIdx (fun e => e.id == t.id) ∧ e = t ∧
              (applyCreditNote entries amount d n cid bid fmt)[j]? = some (f e))) ∧
          (∀ (j k : ℕ) (e1 e2 : LedgerEntry), entries[j]? = some e1 → entries[k]? = some e2 →
            (applyCreditNote entries amount d n cid bid fmt)[j]? ≠ some e1 →
            (applyCreditNote entries amount d n cid bid fmt)[k]? ≠ some e2 → j = k) := by
        intro f tail hre
        constructor
        · intro j e hj
          by_cases hji : j = entries.findIdx (fun x => x.id == t.id)
          · have het : e = t := by
              rw [hji] at hj
              exact Option.some.inj (hj.symm.trans hget)
            exact Or.inr ⟨hji, het, (cnFrame_modify hre j e hj).2 hji⟩
          · exact Or.inl ((cnFrame_modify hre j e hj).1 hji)
        · intro j k e1 e2 hj hk hcj hck
          by_cases hji : j = entries.findIdx (fun x => x.id == t.id)
          · by_cases hki : k = entries.findIdx (fun x => x.id == t.id)
            · rw [hji, hki]
            · exact absurd ((cnFrame_modify hre k e2 hk).1 hki) hck
          · exact absurd ((cnFrame_modify hre j e1 hj).1 hji) hcj
      by_cases hnear : |amount - t.invoiceAmount.getD 0| < 1 / 100
      · have hre := applyCreditNote_settle d n cid bid fmt hp h0 (Or.inl hnear)
        obtain ⟨kmain, kuniq⟩ := key settleByCN _ hre
        refine ⟨?_, kuniq⟩
        intro j e hj
        rcases kmain j e hj with h | ⟨-, het, hres⟩
        · exact Or.inl h
        · exact Or.inr ⟨het ▸ htype, het ▸ hstatus, Or.inl ⟨hres, rfl⟩⟩
      · by_cases hlt2 : amount < t.invoiceAmount.getD 0
        · have hre := applyCreditNote_adjust d n cid bid fmt hp h0 hnear hlt2
          obtain ⟨kmain, kuniq⟩ := key (adjustByCN fmt amount) _ hre
          refine ⟨?_, kuniq⟩
          intro j e hj
          rcases kmain j e hj with h | ⟨-, het, hres⟩
          · exact Or.inl h
          · exact Or.inr ⟨het ▸ htype, het ▸ hstatus, Or.inr ⟨hres, rfl⟩⟩
        · have hgt : t.invoiceAmount.getD 0 < amount := by
            rcases lt_trichotomy amount (t.invoiceAmount.getD 0) with h | h | h
            · exact absurd h hlt2
            · exact absurd (by rw [h, sub_self, abs_zero]; norm_num) hnear
            · exact h
          have hre := applyCreditNote_settle d n cid bid fmt hp h0 (Or.inr hgt)
          obtain ⟨kmain, kuniq⟩ := key settleByCN _ hre
          refine ⟨?_, kuniq⟩
          intro j e hj
          rcases kmain j e hj with h | ⟨-, het, hres⟩
          · exact Or.inl h
          · exact Or.inr ⟨het ▸ htype, het ▸ hstatus, Or.inl ⟨hres, rfl⟩⟩
    · have hre := applyCreditNote_nonpos entries amount d n cid bid fmt (not_lt.mp h0)
      refine ⟨fun j e hj => Or.inl (cnFrame_unchanged hre j e hj), ?_⟩
      intro j k e1 e2 hj hk hcj hck
      exact absurd (cnFrame_unchanged hre j e1 hj) hcj

/-- C8 witness: a `PAID` invoice is returned unchanged by a CN application. -/
theorem c8_witness :
    (applyCreditNote [sPaid] 100 "2024-02-01" "n" "cn1" "b1" (fun _ => "F"))[0]? =
      some sPaid := by
  have h := (c8_status_invariant [sPaid] 100 "2024-02-01" "n" "cn1" "b1" (fun _ => "F")
    (by decide)).1 0 sPaid rfl
  rcases h with h | ⟨-, hst, -⟩
  · exact h
  · exact absurd hst (by decide)

/-- C9: the CN application preserves the relative order of all pre-existing
entries, changes at most the status and notes of the single pending target, and
appends the new entries at the end in a fixed order: the balance-forward
invoice (when created) immediately before the new CN entry, which is last. -/
theorem c9_order_and_frame (entries : List LedgerEntry) (amount : ℚ)
    (d n cid bid : String) (fmt : ℚ → String)
    (hids : (entries.map LedgerEntry.id).Nodup) (h0 : 0 < amount) :
    ∃ pre post : List LedgerEntry,
      applyCreditNote entries amount d n cid bid fmt = pre ++ post ∧
      pre.length = entries.length ∧
      (∀ (j : ℕ) (e : LedgerEntry), entries[j]? = some e →
        ∃ e', pre[j]? = some e' ∧ sameExceptStatusNotes e e') ∧
      (∀ (j : ℕ) (e e' : LedgerEntry), entries[j]? = some e → pre[j]? = some e' → e' ≠ e →
        e.type = EntryType.INVOICE ∧ e.status = some InvStatus.PENDING) ∧
      (post = [mkCNEntry cid d amount n] ∨
        ∃ t, firstPending entries = some t ∧
          post = [mkBalanceInvoice t amount bid, mkCNEntry cid d amount n]) := by
  have hrefl : ∀ e : LedgerEntry, sameExceptStatusNotes e e := fun _ => rfl
  rcases hp : firstPending entries with _ | t
  · refine ⟨entries, [mkCNEntry cid d amount n],
      applyCreditNote_none entries amount d n cid bid fmt hp, rfl, ?_, ?_, Or.inl rfl⟩
    · intro j e hj
      exact ⟨e, hj, hrefl e⟩
    · intro j e e' hj hj' hne
      exact absurd (Option.some.inj (hj.symm.trans hj')).symm hne
  · obtain ⟨hmem, htype, hstatus⟩ := firstPending_mem hp
    obtain ⟨hlti, hget⟩ := findIdx_id_of_nodup hids hmem
    have hmain : ∀ f : LedgerEntry → LedgerEntry,
        (∀ e, sameExceptStatusNotes e (f e)) →
        (∀ (j : ℕ) (e : LedgerEntry), entries[j]? = some e →
          ∃ e', (entries.modify f (entries.findIdx (fun x => x.id == t.id)))[j]? = some e' ∧
            sameExceptStatusNotes e e') ∧
        (∀ (j : ℕ) (e e' : LedgerEntry), entries[j]? = some e →
          (entries.modify f (entries.findIdx (fun x => x.id == t.id)))[j]? = some e' →
          e' ≠ e → e.type = EntryType.INVOICE ∧ e.status = some InvStatus.PENDING) := by
      intro f hf
      constructor
      · intro j e hj
        refine ⟨if entries.findIdx (fun x => x.id == t.id) = j then f e else e, ?_, ?_⟩
        · rw [List.getElem?_modify, hj]
          rfl
        · by_cases hij : entries.findIdx (fun x => x.id == t.id) = j
          · simpa [hij] using hf e
          · simpa [hij] using hrefl e
      · intro j e e' hj hj' hne
        rw [List.getElem?_modify, hj] at hj'
        by_cases hij : entries.findIdx (fun x => x.id == t.id) = j
        · have het : e = t := by
            rw [← hij] at hj
            exact Option.some.inj (hj.symm.trans hget)
          exact ⟨het ▸ htype, het ▸ hstatus⟩
        · have : e = e' := by simpa [hij] using hj'
          exact absurd this.symm hne
    have hsettle : ∀ e : LedgerEntry, sameExceptStatusNotes e (settleByCN e) := fun _ => rfl
    have hadjust : ∀ e : LedgerEntry, sameExceptStatusNotes e (adjustByCN fmt amount e) :=
      fun _ => rfl
    by_cases hnear : |amount - t.invoiceAmount.getD 0| < 1 / 100
    · have hre := applyCreditNote_settle d n cid bid fmt hp h0 (Or.inl hnear)
      exact ⟨_, _, hre, List.length_modify _ _ _, (hmain settleByCN hsettle).1,
        (hmain settleByCN hsettle).2, Or.inl rfl⟩
    · by_cases hlt2 : amount < t.invoiceAmount.getD 0
      · have hre := applyCreditNote_adjust d n cid bid fmt hp h0 hnear hlt2
        exact ⟨_, _, hre, List.length_modify _ _ _,
          (hmain (adjustByCN fmt amount) hadjust).1,
          (hmain (adjustByCN fmt amount) hadjust).2, Or.inr ⟨t, rfl, rfl⟩⟩
      · have hgt : t.invoiceAmount.getD 0 < amount := by
          rcases lt_trichotomy amount (t.invoiceAmount.getD 0) with h | h | h
          · exact absurd h hlt2
          · exact absurd (by rw [h, sub_self, abs_zero]; norm_num) hnear
          · exact h
        have hre := applyCreditNote_settle d n cid bid fmt hp h0 (Or.inr hgt)
        exact ⟨_, _, hre, List.length_modify _ _ _, (hmain settleByCN hsettle).1,
          (hmain settleByCN hsettle).2, Or.inl rfl⟩

/-- C9 witness: the decomposition instantiated at a concrete adjust-split run. -/
theorem c9_witness :
    ∃ pre post : List LedgerEntry,
      applyCreditNote [sInv] 400 "2024-02-01" "n" "cn1" "b1" (fun _ => "F") = pre ++ post ∧
      pre.length = [sInv].length := by
  obtain ⟨pre, post, h1, h2, -, -, -⟩ :=
    c9_order_and_frame [sInv] 400 "2024-02-01" "n" "cn1" "b1" (fun _ => "F")
      (by decide) (by norm_num)
  exact ⟨pre, post, h1, h2⟩
